import Mathlib

/-!
# EKA2L1: process argument slots and command-line parsing

A shallow embedding of

* `src/emu/core/include/core/kernel/process.h`: `pass_arg`, the `args` member of
  `process` and the two slot accessors declared there;
* `src/emu/console/src/main.cpp`: the globals, `print_help`, `fetch_rpkg` and
  `parse_args`.

C strings are Lean strings (an element of `argv` holds no NUL character), the
globals of `main.cpp` are the fields of one record that is passed along, and
`std::cout` is the list of the lines written so far.
-/

namespace eka2l1

/-! ## `process.h` -/

namespace kernel

/-- The largest `size_t` of a 64-bit host: what `size_t data_size = -1` stores. -/
def SIZE_MAX : Nat := 2 ^ 64 - 1

/-- The `struct pass_arg`, with `uint32_t data = 0` and `size_t data_size = -1`. -/
structure pass_arg where
  data : Nat := 0
  data_size : Nat := SIZE_MAX
deriving DecidableEq, Repr

/-- The number of elements of `std::array<pass_arg, 16> args`. -/
def ARG_SLOTS : Nat := 16

/-- The `args` member of `class process`: `std::array<pass_arg, 16>`, a sequence
whose length is fixed by its type. The other members play no part in the slot
accessors. -/
structure process where
  args : List pass_arg
  args_size : args.length = ARG_SLOTS

/-- The constructor `process() = default`: every element of `args` is a default `pass_arg`. -/
def process.default : process :=
  { args := List.replicate ARG_SLOTS {}, args_size := List.length_replicate _ _ }

/-- Modelled from the spec: the "index error" with which a write to an out-of-range
slot fails; no error type of the slot accessors is declared in `process.h`. -/
inductive arg_error where
  | index_error
deriving DecidableEq, Repr

/-- Modelled from the spec: the body of `process::set_arg_slot` (`process.cpp`) is
missing; `process.h` only declares
`void set_arg_slot(uint8_t slot, uint32_t data, size_t data_size)`.
"writing an out-of-range slot index fails with an index error"; a write inside
the range stores `data` and `data_size` in the slot. -/
def process.set_arg_slot (p : process) (slot data data_size : Nat) :
    Except arg_error process :=
  if slot < ARG_SLOTS then
    .ok { args := p.args.set slot { data := data, data_size := data_size }
          args_size := by rw [List.length_set]; exact p.args_size }
  else
    .error .index_error

/-- Modelled from the spec: the body of `process::get_arg_slot` (`process.cpp`) is
missing; `process.h` only declares `std::optional<pass_arg> get_arg_slot(uint8_t slot)`.
"reading an unset slot returns absent": `args` holds no flag beside the value, so
the unset slot is the one that still holds the default `pass_arg`. A slot index
outside the array has no value either. -/
def process.get_arg_slot (p : process) (slot : Nat) : Option pass_arg :=
  match p.args[slot]? with
  | none => none
  | some a => if a = {} then none else some a

end kernel

/-! ## `main.cpp` -/

/-- The enumerators of `enum class epocver` that `main.cpp` names; the declaration
of the enum is in a header outside the sources at hand. -/
inductive epocver where
  | epoc6
  | epoc9
  | epoc93
  | epoc10
deriving DecidableEq, Repr

/-- What `main.cpp` takes from outside the repository: `std::atoi` of the C library
and the numeric value `(int)ever` of an enumerator. -/
structure host where
  atoi : String → Int
  epocver_int : epocver → Int

/-- A scalar stored in a `YAML::Node`. -/
inductive yaml_value where
  | str (s : String)
  | int (n : Int)
deriving DecidableEq, Repr

/-- The `YAML::Node config`, as the map from its keys to their scalars. -/
abbrev yaml_node := List (String × yaml_value)

/-- The assignment `config[key] = v`. -/
def yaml_set (config : yaml_node) (key : String) (v : yaml_value) : yaml_node :=
  (key, v) :: config.filter (fun kv => kv.1 != key)

/-- The scalar `config[key]`, when the key is present. -/
def yaml_get (config : yaml_node) (key : String) : Option yaml_value :=
  config.lookup key

/-- The globals of `main.cpp` that `print_help`, `fetch_rpkg` and `parse_args` touch,
and `cout`: the lines written to `std::cout`. -/
structure globals where
  ever : epocver := .epoc9
  rom_path : String := "SYM.ROM"
  mount_c : String := "drives/c/"
  mount_e : String := "drives/e/"
  sis_install_path : String := "-1"
  rpkg_path : String := ""
  adrive : Nat := 0
  config : yaml_node := []
  drive_mount : Int := 0
  app_idx : Int := -1
  help_printed : Bool := false
  list_app : Bool := false
  install_rpkg : Bool := false
  quit : Bool := false
  cout : List String := []
deriving DecidableEq, Repr

/-- The first line of the help text. -/
def usage_line : String :=
  "Usage: Drag and drop Symbian file here, ignore missing dependencies"

/-- The lines `print_help` writes. -/
def help_text : List String :=
  [ usage_line,
    "Options: ",
    "\t -rom: Specified where the ROM is located. If none is specified, the emu will look for a file named SYM.ROM.",
    "\t -ver: Specified Symbian version to emulate (either 6 or 9).",
    "\t -app: Specified the app to run. Next to this option is the index number.",
    "\t -listapp: List all of the apps.",
    "\t -install: Install a SIS/SISX package",
    "\t -irpkg ver path: Install RPKG.",
    "\t\t ver:  Epoc version. Available version are: v94, v93, belle, v60",
    "\t\t path: Path to RPKG file.",
    "\t -h/-help: Print help" ]

/-- The function `void print_help()`. -/
def print_help (g : globals) : globals :=
  { g with cout := g.cout ++ help_text }

/-- The function `void fetch_rpkg(const char *ver, const char *path)`. -/
def fetch_rpkg (ver path : String) (g : globals) : globals :=
  let g := { g with install_rpkg := true }
  let g := { g with rpkg_path := path }
  if ver = "v93" then
    { g with ever := .epoc93 }
  else if ver = "v94" then
    { g with ever := .epoc9 }
  else if ver = "belle" then
    { g with ever := .epoc10 }
  else if ver = "v60" then
    { g with ever := .epoc6 }
  else
    g

/-- The test `strncmp(a, b, n) == 0` on C strings: the first `n` characters agree, the
comparison ending early where both strings end. -/
def strncmp_eq (a b : String) (n : Nat) : Bool :=
  a.data.take n == b.data.take n

/-- How one pass through the body of the `for` loop of `parse_args` ends: at the end
of the body, after `used` increments of `i` inside it; at a `break`; or in undefined
behaviour. -/
inductive body_exit where
  | next (used : Nat) (g : globals)
  | stop (g : globals)
  | undefined

/-- The body of the `for` loop of `parse_args` at `argv[i] = a`, with `rest` the
elements `argv[i + 1], ..., argv[argc - 1]`. It is undefined behaviour when a branch
reads its value at `argv[argc]` (a null pointer) or beyond. `std::atoi` throws
nothing, so the two `catch` blocks are dead code. -/
def parse_option (h : host) (a : String) (rest : List String) (g : globals) : body_exit :=
  if strncmp_eq a "-rom" 4 then
    match rest with
    | v :: _ =>
      let g := { g with rom_path := v }
      .next 1 { g with config := yaml_set g.config "rom_path" (.str g.rom_path) }
    | [] => .undefined
  else if (strncmp_eq a "-h" 2 || strncmp_eq a "-help" 5) && !g.help_printed then
    let g := print_help g
    let g := { g with help_printed := true }
    .next 0 { g with quit := true }
  else if strncmp_eq a "-ver" 4 || strncmp_eq a "-v" 2 then
    match rest with
    | v :: _ =>
      let ver := h.atoi v
      if ver = 6 then
        let g := { g with ever := .epoc6 }
        .next 1 { g with config := yaml_set g.config "epoc_ver" (.int (h.epocver_int g.ever)) }
      else
        let g := { g with ever := .epoc9 }
        .next 1 { g with config := yaml_set g.config "epoc_ver" (.int (h.epocver_int g.ever)) }
    | [] => .undefined
  else if strncmp_eq a "-app" 4 then
    match rest with
    | v :: _ => .next 1 { g with app_idx := h.atoi v }
    | [] => .undefined
  else if strncmp_eq a "-listapp" 8 then
    .next 0 { g with list_app := true }
  else if strncmp_eq a "-install" 8 then
    match rest with
    | v :: p :: _ =>
      let g := { g with adrive := (h.atoi v % 256).toNat }
      .next 2 { g with sis_install_path := p }
    | _ => .undefined
  else if strncmp_eq a "-mount" 6 then
    match rest with
    | v :: p :: _ =>
      let g := { g with drive_mount := h.atoi v }
      if g.drive_mount = (0 : Int) then
        .next 2 { g with mount_c := p }
      else
        .next 2 { g with mount_e := p }
    | _ => .undefined
  else if strncmp_eq a "-irpkg" 6 then
    match rest with
    | v :: p :: _ => .next 2 (fetch_rpkg v p g)
    | _ => .undefined
  else
    let g := { g with cout := g.cout ++ ["Invalid request."] }
    .stop { g with quit := true }

/-- The `for` loop of `parse_args`, `for (int i = 1; i <= argc - 1; i++)`, run on
`argv[i], ..., argv[argc - 1]`; `none` is undefined behaviour. -/
def parse_loop (h : host) : List String → globals → Option globals
  | [], g => some g
  | a :: rest, g =>
    match parse_option h a rest g with
    | .next used g => parse_loop h (rest.drop used) g
    | .stop g => some g
    | .undefined => none
termination_by args => args.length
decreasing_by
  simp only [List.length_drop, List.length_cons]
  omega

/-- The function `void parse_args(int argc, char **argv)`, with `argc = argv.length`. -/
def parse_args (h : host) (argv : List String) (g : globals) : Option globals :=
  if argv.length ≤ 1 then
    let g := print_help g
    some { g with quit := true }
  else
    parse_loop h (argv.drop 1) g

/-! ## Vocabulary of the statements about `parse_args` -/

/-- The number of values an option takes: how many elements of `argv` after `a` the
branch of `parse_args` for `a` reads. -/
def option_values (a : String) : Nat :=
  if strncmp_eq a "-rom" 4 then 1
  else if strncmp_eq a "-h" 2 || strncmp_eq a "-help" 5 then 0
  else if strncmp_eq a "-ver" 4 || strncmp_eq a "-v" 2 then 1
  else if strncmp_eq a "-app" 4 then 1
  else if strncmp_eq a "-listapp" 8 then 0
  else if strncmp_eq a "-install" 8 then 2
  else if strncmp_eq a "-mount" 6 then 2
  else if strncmp_eq a "-irpkg" 6 then 2
  else 0

/-- Each value-taking option among the arguments is followed by its values, where
the first `pending` arguments are values of an option that stands before them. -/
def values_present : Nat → List String → Bool
  | 0, [] => true
  | _ + 1, [] => false
  | 0, a :: rest => values_present (option_values a) rest
  | pending + 1, _ :: rest => values_present pending rest

/-- An argument `-h` or `-help` stands at option position: it is not among the
values of an option before it (the first `pending` arguments are such values). -/
def help_at_option : Nat → List String → Bool
  | _, [] => false
  | 0, a :: rest => a == "-h" || a == "-help" || help_at_option (option_values a) rest
  | pending + 1, _ :: rest => help_at_option pending rest

/-- How many times the help text stands in `std::cout`. -/
def help_prints (g : globals) : Nat :=
  g.cout.count usage_line

/-- What every step of `parse_args` keeps, from the globals `g` before to the globals
`g1` after: a set `quit` stays set, nothing is printed of the help text once
`help_printed` is set, and a print of the help text sets `help_printed`. -/
def help_rel (g g1 : globals) : Prop :=
  (g.quit = true → g1.quit = true) ∧
  (g.help_printed = true → g1.help_printed = true ∧ help_prints g1 = help_prints g) ∧
  (help_prints g1 = help_prints g ∨
    (help_prints g1 = help_prints g + 1 ∧ g1.help_printed = true))

/-- The white space of the C locale: the space and the characters 9 to 13. -/
def isspace (c : Char) : Bool :=
  c == ' ' || (9 ≤ c.toNat && c.toNat ≤ 13)

/-- The digits of `atoi`: the value of the longest run of decimal digits at the
head, on top of `acc`. -/
def atoi_digits : List Char → Int → Int
  | [], acc => acc
  | c :: cs, acc =>
    if c.isDigit then atoi_digits cs (acc * 10 + (c.toNat - 48 : Nat)) else acc

/-- A reference `atoi` for concrete runs: white space, an optional sign, decimal
digits. (The C library leaves the result undefined outside the range of `int`;
this one returns the number itself.) -/
def c_atoi (s : String) : Int :=
  match s.data.dropWhile isspace with
  | '-' :: ds => - atoi_digits ds 0
  | '+' :: ds => atoi_digits ds 0
  | ds => atoi_digits ds 0

/-- A host for concrete runs: the reference `atoi`, and the enumerators numbered in
the order `epoc6, epoc9, epoc93, epoc10`. -/
def sample_host : host where
  atoi := c_atoi
  epocver_int := fun e =>
    match e with
    | .epoc6 => 0
    | .epoc9 => 1
    | .epoc93 => 2
    | .epoc10 => 3

/-! ## Theorems: argument slots -/

namespace kernel

/-- C1: the argument-slot array has exactly 16 slots, a write to a slot index
0..15 succeeds and stores the value there, and a write to any slot index that is
16 or more fails with the index error, which is what the caller receives in place
of a process with a slot written. -/
theorem set_arg_slot_index_error :
    (∀ p : process, p.args.length = 16) ∧
    (∀ (p : process) (slot data data_size : Nat), slot < 16 →
      ∃ p', p.set_arg_slot slot data data_size = .ok p' ∧
        p'.args[slot]? = some { data := data, data_size := data_size }) ∧
    (∀ (p : process) (slot data data_size : Nat), 16 ≤ slot →
      p.set_arg_slot slot data data_size = .error .index_error) := by
  refine ⟨fun p => p.args_size, ?_, ?_⟩
  · intro p slot data data_size hs
    have hlt : slot < p.args.length := by rw [p.args_size]; exact hs
    refine ⟨_, if_pos hs, ?_⟩
    simp [List.getElem?_set, hlt]
  · intro p slot data data_size hs
    exact if_neg (Nat.not_lt.mpr hs)

/-- Slot 16 of a default process: the write fails with the index error. -/
theorem set_arg_slot_index_error_witness :
    16 ≤ 16 ∧ process.default.set_arg_slot 16 7 4 = .error .index_error :=
  ⟨by decide, set_arg_slot_index_error.2.2 process.default 16 7 4 (by decide)⟩

/-- C2: every slot 0..15 of a newly constructed process reads as absent; a slot
that holds the default `pass_arg` (data 0, data_size -1) is never returned as a
value; and a write to another slot leaves what a slot reads as unchanged, so a
slot stays absent as long as no write is made to it. -/
theorem get_arg_slot_unset_absent :
    (∀ slot : Nat, slot < 16 → process.default.get_arg_slot slot = none) ∧
    (∀ (p : process) (slot : Nat),
      p.args[slot]? = some { data := 0, data_size := SIZE_MAX } →
        p.get_arg_slot slot = none) ∧
    (∀ (p p' : process) (i j data data_size : Nat), j ≠ i →
      p.set_arg_slot j data data_size = .ok p' →
        p'.get_arg_slot i = p.get_arg_slot i) := by
  refine ⟨?_, ?_, ?_⟩
  · intro slot hs
    have hr : process.default.args[slot]? = some {} := by
      show (List.replicate ARG_SLOTS ({} : pass_arg))[slot]? = some {}
      rw [List.getElem?_replicate]
      exact if_pos hs
    simp [process.get_arg_slot, hr]
  · intro p slot hp
    simp [process.get_arg_slot, hp]
  · intro p p' i j data data_size hji hset
    unfold process.set_arg_slot at hset
    split at hset
    · injection hset with hp
      subst hp
      simp [process.get_arg_slot, List.getElem?_set_ne hji]
    · exact absurd hset (by simp)

/-- Slot 3 of a default process is absent, also after a write to slot 5. -/
theorem get_arg_slot_unset_absent_witness :
    process.default.get_arg_slot 3 = none ∧
    ∀ p', process.default.set_arg_slot 5 9 4 = .ok p' → p'.get_arg_slot 3 = none := by
  refine ⟨get_arg_slot_unset_absent.1 3 (by decide), ?_⟩
  intro p' hset
  rw [get_arg_slot_unset_absent.2.2 process.default p' 3 5 9 4 (by decide) hset]
  exact get_arg_slot_unset_absent.1 3 (by decide)

/-- A slot that was written with a value other than the default reads as that value. -/
theorem get_arg_slot_after_set (p p' : process) (slot data data_size : Nat)
    (hd : ({ data := data, data_size := data_size } : pass_arg) ≠ {})
    (hset : p.set_arg_slot slot data data_size = .ok p') :
    p'.get_arg_slot slot = some { data := data, data_size := data_size } := by
  unfold process.set_arg_slot at hset
  split at hset
  · rename_i hs
    injection hset with hp
    subst hp
    have hlt : slot < p.args.length := by rw [p.args_size]; exact hs
    simp [process.get_arg_slot, List.getElem?_set, hlt, hd]
  · exact absurd hset (by simp)

end kernel

/-! ## Theorems: the tests of `parse_args` -/

/-- A `strncmp` over at least two characters that finds no difference: the two
strings have the same second character. -/
theorem strncmp_eq_second (a b : String) (n : Nat) (hn : 2 ≤ n)
    (he : strncmp_eq a b n = true) : a.data[1]? = b.data[1]? := by
  have ht : a.data.take n = b.data.take n := by simpa [strncmp_eq] using he
  have h1 : (a.data.take n)[1]? = (b.data.take n)[1]? := by rw [ht]
  have hlt : 1 < n := by omega
  simpa [List.getElem?_take, hlt] using h1

/-- An argument that passes the test for `-h` or `-help` passes no other test of
`parse_args`. -/
theorem help_test_only (a : String)
    (hh : (strncmp_eq a "-h" 2 || strncmp_eq a "-help" 5) = true) :
    strncmp_eq a "-rom" 4 = false ∧ strncmp_eq a "-ver" 4 = false ∧
    strncmp_eq a "-v" 2 = false ∧ strncmp_eq a "-app" 4 = false ∧
    strncmp_eq a "-listapp" 8 = false ∧ strncmp_eq a "-install" 8 = false ∧
    strncmp_eq a "-mount" 6 = false ∧ strncmp_eq a "-irpkg" 6 = false := by
  have h2 : a.data[1]? = some 'h' := by
    rcases Bool.or_eq_true_iff.mp hh with h | h
    · exact strncmp_eq_second a "-h" 2 (by decide) h
    · exact strncmp_eq_second a "-help" 5 (by decide) h
  have key : ∀ (b : String) (n : Nat), 2 ≤ n → b.data[1]? ≠ some 'h' →
      strncmp_eq a b n = false := by
    intro b n hn hb
    cases hc : strncmp_eq a b n with
    | false => rfl
    | true => exact absurd ((strncmp_eq_second a b n hn hc).symm.trans h2) hb
  exact ⟨key _ _ (by decide) (by decide), key _ _ (by decide) (by decide),
    key _ _ (by decide) (by decide), key _ _ (by decide) (by decide),
    key _ _ (by decide) (by decide), key _ _ (by decide) (by decide),
    key _ _ (by decide) (by decide), key _ _ (by decide) (by decide)⟩

/-- The help text holds its first line once, and the line of the `else` branch is
another line. -/
theorem count_usage_line :
    help_text.count usage_line = 1 ∧ ["Invalid request."].count usage_line = 0 := by
  decide

/-- Steps that leave `quit`, `help_printed` and `std::cout` alone keep `help_rel`. -/
theorem help_rel_of_eq (g g1 : globals) (hq : g1.quit = g.quit)
    (hp : g1.help_printed = g.help_printed) (hc : g1.cout = g.cout) : help_rel g g1 := by
  refine ⟨fun h => hq.trans h, fun h => ⟨hp.trans h, ?_⟩, Or.inl ?_⟩ <;>
    simp [help_prints, hc]

/-- The relation `help_rel` composes. -/
theorem help_rel_trans (g g1 g2 : globals) (h1 : help_rel g g1) (h2 : help_rel g1 g2) :
    help_rel g g2 := by
  obtain ⟨q1, p1, c1⟩ := h1
  obtain ⟨q2, p2, c2⟩ := h2
  refine ⟨fun h => q2 (q1 h), fun h => ?_, ?_⟩
  · obtain ⟨a1, b1⟩ := p1 h
    obtain ⟨a2, b2⟩ := p2 a1
    exact ⟨a2, b2.trans b1⟩
  · rcases c1 with e1 | ⟨e1, hp1⟩
    · rcases c2 with e2 | ⟨e2, hp2⟩
      · exact Or.inl (e2.trans e1)
      · exact Or.inr ⟨by omega, hp2⟩
    · obtain ⟨a2, b2⟩ := p2 hp1
      exact Or.inr ⟨by omega, a2⟩

/-- The function `fetch_rpkg` writes neither `quit`, nor `help_printed`, nor `std::cout`. -/
theorem fetch_rpkg_frame (ver path : String) (g : globals) :
    (fetch_rpkg ver path g).quit = g.quit ∧
    (fetch_rpkg ver path g).help_printed = g.help_printed ∧
    (fetch_rpkg ver path g).cout = g.cout := by
  unfold fetch_rpkg
  split_ifs <;> exact ⟨rfl, rfl, rfl⟩

/-- One pass through the loop body: it reads as many values as the option takes
and keeps `help_rel`; it sets `quit` at `-h`, at `-help` and at a `break`; and it is
undefined only when values of the option are missing. -/
theorem parse_option_spec (h : host) (a : String) (rest : List String) (g : globals) :
    match parse_option h a rest g with
    | .next used g1 =>
        used = option_values a ∧ used ≤ rest.length ∧ help_rel g g1 ∧
          ((a = "-h" ∨ a = "-help") → g1.quit = true)
    | .stop g1 => g1.quit = true ∧ help_rel g g1
    | .undefined => rest.length < option_values a := by
  by_cases hh : (strncmp_eq a "-h" 2 || strncmp_eq a "-help" 5) = true
  · obtain ⟨e1, e2, e3, e4, e5, e6, e7, e8⟩ := help_test_only a hh
    have ov : option_values a = 0 := by simp [option_values, e1, hh]
    cases hp : g.help_printed with
    | true =>
      have hb : parse_option h a rest g =
          .stop { g with cout := g.cout ++ ["Invalid request."], quit := true } := by
        simp [parse_option, e1, e2, e3, e4, e5, e6, e7, e8, hp]
      rw [hb]
      refine ⟨rfl, fun _ => rfl, fun _ => ⟨hp, ?_⟩, Or.inl ?_⟩ <;>
        simp [help_prints, count_usage_line.2]
    | false =>
      have hb : parse_option h a rest g =
          .next 0 { g with cout := g.cout ++ help_text, help_printed := true, quit := true } := by
        simp [parse_option, e1, hh, hp, print_help]
      rw [hb]
      refine ⟨ov.symm, Nat.zero_le _, ⟨fun _ => rfl, fun hc => ?_, Or.inr ⟨?_, rfl⟩⟩, fun _ => rfl⟩
      · rw [hp] at hc; exact absurd hc (by decide)
      · simp [help_prints, count_usage_line.1]
  · have na : ¬ (a = "-h" ∨ a = "-help") := by
      rintro (rfl | rfl) <;> exact hh (by decide)
    have hh' : (strncmp_eq a "-h" 2 || strncmp_eq a "-help" 5) = false := by
      simpa using hh
    have hstop : help_rel g { g with cout := g.cout ++ ["Invalid request."], quit := true } := by
      refine ⟨fun _ => rfl, fun hp => ⟨hp, ?_⟩, Or.inl ?_⟩ <;>
        simp [help_prints, count_usage_line.2]
    by_cases c1 : strncmp_eq a "-rom" 4 = true
    · have ov : option_values a = 1 := by
        simp [option_values, c1, hh']
      rcases rest with _ | ⟨v, rest⟩
      · simp only [parse_option, c1, hh', Bool.false_and, Bool.false_eq_true, if_false, if_true]
        rw [ov]; exact Nat.zero_lt_one
      · simp only [parse_option, c1, hh', Bool.false_and, Bool.false_eq_true, if_false, if_true]
        exact ⟨ov.symm, Nat.succ_le_succ (Nat.zero_le _), help_rel_of_eq _ _ rfl rfl rfl, fun hx => absurd hx na⟩
    by_cases c3 : (strncmp_eq a "-ver" 4 || strncmp_eq a "-v" 2) = true
    · have ov : option_values a = 1 := by
        simp [option_values, c1, c3, hh']
      rcases rest with _ | ⟨v, rest⟩
      · simp only [parse_option, c1, c3, hh', Bool.false_and, Bool.false_eq_true, if_false, if_true]
        rw [ov]; exact Nat.zero_lt_one
      · simp only [parse_option, c1, c3, hh', Bool.false_and, Bool.false_eq_true, if_false, if_true]
        split_ifs <;>
          exact ⟨ov.symm, Nat.succ_le_succ (Nat.zero_le _), help_rel_of_eq _ _ rfl rfl rfl, fun hx => absurd hx na⟩
    by_cases c4 : strncmp_eq a "-app" 4 = true
    · have ov : option_values a = 1 := by
        simp [option_values, c1, c3, c4, hh']
      rcases rest with _ | ⟨v, rest⟩
      · simp only [parse_option, c1, c3, c4, hh', Bool.false_and, Bool.false_eq_true, if_false, if_true]
        rw [ov]; exact Nat.zero_lt_one
      · simp only [parse_option, c1, c3, c4, hh', Bool.false_and, Bool.false_eq_true, if_false, if_true]
        exact ⟨ov.symm, Nat.succ_le_succ (Nat.zero_le _), help_rel_of_eq _ _ rfl rfl rfl, fun hx => absurd hx na⟩
    by_cases c5 : strncmp_eq a "-listapp" 8 = true
    · have ov : option_values a = 0 := by
        simp [option_values, c1, c3, c4, c5, hh']
      simp only [parse_option, c1, c3, c4, c5, hh', Bool.false_and, Bool.false_eq_true, if_false, if_true]
      exact ⟨ov.symm, Nat.zero_le _, help_rel_of_eq _ _ rfl rfl rfl, fun hx => absurd hx na⟩
    by_cases c6 : strncmp_eq a "-install" 8 = true
    · have ov : option_values a = 2 := by
        simp [option_values, c1, c3, c4, c5, c6, hh']
      rcases rest with _ | ⟨v, _ | ⟨p, rest⟩⟩
      · simp only [parse_option, c1, c3, c4, c5, c6, hh', Bool.false_and, Bool.false_eq_true, if_false, if_true]
        rw [ov]; exact Nat.zero_lt_two
      · simp only [parse_option, c1, c3, c4, c5, c6, hh', Bool.false_and, Bool.false_eq_true, if_false, if_true]
        rw [ov]; exact Nat.one_lt_two
      · simp only [parse_option, c1, c3, c4, c5, c6, hh', Bool.false_and, Bool.false_eq_true, if_false, if_true]
        exact ⟨ov.symm, Nat.succ_le_succ (Nat.succ_le_succ (Nat.zero_le _)), help_rel_of_eq _ _ rfl rfl rfl, fun hx => absurd hx na⟩
    by_cases c7 : strncmp_eq a "-mount" 6 = true
    · have ov : option_values a = 2 := by
        simp [option_values, c1, c3, c4, c5, c6, c7, hh']
      rcases rest with _ | ⟨v, _ | ⟨p, rest⟩⟩
      · simp only [parse_option, c1, c3, c4, c5, c6, c7, hh', Bool.false_and, Bool.false_eq_true, if_false, if_true]
        rw [ov]; exact Nat.zero_lt_two
      · simp only [parse_option, c1, c3, c4, c5, c6, c7, hh', Bool.false_and, Bool.false_eq_true, if_false, if_true]
        rw [ov]; exact Nat.one_lt_two
      · simp only [parse_option, c1, c3, c4, c5, c6, c7, hh', Bool.false_and, Bool.false_eq_true, if_false, if_true]
        split_ifs <;>
          exact ⟨ov.symm, Nat.succ_le_succ (Nat.succ_le_succ (Nat.zero_le _)), help_rel_of_eq _ _ rfl rfl rfl, fun hx => absurd hx na⟩
    by_cases c8 : strncmp_eq a "-irpkg" 6 = true
    · have ov : option_values a = 2 := by
        simp [option_values, c1, c3, c4, c5, c6, c7, c8, hh']
      rcases rest with _ | ⟨v, _ | ⟨p, rest⟩⟩
      · simp only [parse_option, c1, c3, c4, c5, c6, c7, c8, hh', Bool.false_and, Bool.false_eq_true, if_false, if_true]
        rw [ov]; exact Nat.zero_lt_two
      · simp only [parse_option, c1, c3, c4, c5, c6, c7, c8, hh', Bool.false_and, Bool.false_eq_true, if_false, if_true]
        rw [ov]; exact Nat.one_lt_two
      · simp only [parse_option, c1, c3, c4, c5, c6, c7, c8, hh', Bool.false_and, Bool.false_eq_true, if_false, if_true]
        exact ⟨ov.symm, Nat.succ_le_succ (Nat.succ_le_succ (Nat.zero_le _)),
          help_rel_of_eq _ _ (fetch_rpkg_frame v p g).1 (fetch_rpkg_frame v p g).2.1
            (fetch_rpkg_frame v p g).2.2, fun hx => absurd hx na⟩
    simp only [parse_option, c1, c3, c4, c5, c6, c7, c8, hh', Bool.false_and, Bool.false_eq_true,
      if_false]
    exact ⟨trivial, hstop⟩

/-! ## Theorems: the loop of `parse_args` -/

/-- Skipping the pending values first: `values_present` on what is left. -/
theorem values_present_drop (k : Nat) (l : List String) :
    values_present k l = (decide (k ≤ l.length) && values_present 0 (l.drop k)) := by
  induction l generalizing k with
  | nil => cases k <;> simp [values_present]
  | cons a rest ih =>
    cases k with
    | zero => simp
    | succ k => simp [values_present, ih k]

/-- Skipping the pending values first: `help_at_option` on what is left. -/
theorem help_at_option_drop (k : Nat) (l : List String) :
    help_at_option k l = help_at_option 0 (l.drop k) := by
  induction l generalizing k with
  | nil => cases k <;> simp [help_at_option]
  | cons a rest ih =>
    cases k with
    | zero => simp
    | succ k => simp [help_at_option, ih k]

/-- The loop keeps `help_rel` from its first state to its last. -/
theorem parse_loop_help_rel (h : host) (n : Nat) :
    ∀ (args : List String) (g g' : globals), args.length ≤ n →
      parse_loop h args g = some g' → help_rel g g' := by
  induction n with
  | zero =>
    intro args g g' hn hr
    have : args = [] := List.length_eq_zero.mp (Nat.le_zero.mp hn)
    subst this
    rw [parse_loop] at hr
    injection hr with hr
    subst hr
    exact help_rel_of_eq _ _ rfl rfl rfl
  | succ n ih =>
    intro args g g' hn hr
    rcases args with _ | ⟨a, rest⟩
    · rw [parse_loop] at hr
      injection hr with hr
      subst hr
      exact help_rel_of_eq _ _ rfl rfl rfl
    · rw [parse_loop] at hr
      have hb := parse_option_spec h a rest g
      cases hopt : parse_option h a rest g with
      | next used g1 =>
        rw [hopt] at hr hb
        obtain ⟨_, _, hrel, _⟩ := hb
        have hlen : (rest.drop used).length ≤ n := by
          simp only [List.length_drop, List.length_cons] at hn ⊢
          omega
        exact help_rel_trans _ _ _ hrel (ih _ _ _ hlen hr)
      | stop g1 =>
        rw [hopt] at hr hb
        injection hr with hr
        subst hr
        exact hb.2
      | undefined =>
        rw [hopt] at hr
        exact absurd hr (by simp)

/-- The loop returns when each value-taking option is followed by its values. -/
theorem parse_loop_returns (h : host) (n : Nat) :
    ∀ (args : List String) (g : globals), args.length ≤ n →
      values_present 0 args = true → ∃ g', parse_loop h args g = some g' := by
  induction n with
  | zero =>
    intro args g hn _
    have : args = [] := List.length_eq_zero.mp (Nat.le_zero.mp hn)
    subst this
    exact ⟨g, by rw [parse_loop]⟩
  | succ n ih =>
    intro args g hn hv
    rcases args with _ | ⟨a, rest⟩
    · exact ⟨g, by rw [parse_loop]⟩
    · rw [parse_loop]
      have hb := parse_option_spec h a rest g
      have hv' : values_present (option_values a) rest = true := hv
      rw [values_present_drop] at hv'
      obtain ⟨hle, hvd⟩ := Bool.and_eq_true_iff.mp hv'
      cases hopt : parse_option h a rest g with
      | next used g1 =>
        rw [hopt] at hb
        obtain ⟨hu, _, _, _⟩ := hb
        have hlen : (rest.drop used).length ≤ n := by
          simp only [List.length_drop, List.length_cons] at hn ⊢
          omega
        rw [← hu] at hvd
        exact ih _ g1 hlen hvd
      | stop g1 => exact ⟨g1, rfl⟩
      | undefined =>
        rw [hopt] at hb
        have hle' : option_values a ≤ rest.length := of_decide_eq_true hle
        exact absurd hb (Nat.not_lt.mpr hle')

/-- The loop sets `quit` when `-h` or `-help` stands at option position. -/
theorem parse_loop_help_quit (h : host) (n : Nat) :
    ∀ (args : List String) (g g' : globals), args.length ≤ n →
      help_at_option 0 args = true → parse_loop h args g = some g' → g'.quit = true := by
  induction n with
  | zero =>
    intro args g g' hn hh _
    have : args = [] := List.length_eq_zero.mp (Nat.le_zero.mp hn)
    subst this
    exact absurd hh (by simp [help_at_option])
  | succ n ih =>
    intro args g g' hn hh hr
    rcases args with _ | ⟨a, rest⟩
    · exact absurd hh (by simp [help_at_option])
    · rw [parse_loop] at hr
      have hb := parse_option_spec h a rest g
      cases hopt : parse_option h a rest g with
      | next used g1 =>
        rw [hopt] at hr hb
        obtain ⟨hu, _, _, hq⟩ := hb
        have hlen : (rest.drop used).length ≤ n := by
          simp only [List.length_drop, List.length_cons] at hn ⊢
          omega
        by_cases ha : a = "-h" ∨ a = "-help"
        · exact (parse_loop_help_rel h n _ g1 g' hlen hr).1 (hq ha)
        · have hh' : help_at_option (option_values a) rest = true := by
            simp only [help_at_option, Bool.or_eq_true, beq_iff_eq] at hh
            rcases hh with (h1 | h1) | h1
            · exact absurd (Or.inl h1) ha
            · exact absurd (Or.inr h1) ha
            · exact h1
          rw [help_at_option_drop, ← hu] at hh'
          exact ih _ g1 g' hlen hh' hr
      | stop g1 =>
        rw [hopt] at hr hb
        injection hr with hr
        subst hr
        exact hb.1
      | undefined =>
        rw [hopt] at hr
        exact absurd hr (by simp)

/-! ## Theorems: `fetch_rpkg` and `-ver` -/

/-- No test of `parse_args` that stands before the one for `-irpkg` accepts `-irpkg`. -/
theorem irpkg_tests :
    strncmp_eq "-irpkg" "-rom" 4 = false ∧ strncmp_eq "-irpkg" "-h" 2 = false ∧
    strncmp_eq "-irpkg" "-help" 5 = false ∧ strncmp_eq "-irpkg" "-ver" 4 = false ∧
    strncmp_eq "-irpkg" "-v" 2 = false ∧ strncmp_eq "-irpkg" "-app" 4 = false ∧
    strncmp_eq "-irpkg" "-listapp" 8 = false ∧ strncmp_eq "-irpkg" "-install" 8 = false ∧
    strncmp_eq "-irpkg" "-mount" 6 = false ∧ strncmp_eq "-irpkg" "-irpkg" 6 = true := by
  decide

/-- The tests of `parse_args` on `-ver`: the first two fail, the third accepts it. -/
theorem ver_tests :
    strncmp_eq "-ver" "-rom" 4 = false ∧ strncmp_eq "-ver" "-h" 2 = false ∧
    strncmp_eq "-ver" "-help" 5 = false ∧ strncmp_eq "-ver" "-ver" 4 = true := by
  decide

/-- C3: `fetch_rpkg ver path` sets `install_rpkg`, stores `path` in `rpkg_path`,
selects epoc9 for "v94", epoc93 for "v93", epoc10 for "belle", epoc6 for "v60" and
leaves the selected version as it was for every other `ver`; and the option
`-irpkg ver path` of `parse_args` runs exactly `fetch_rpkg ver path`. -/
theorem fetch_rpkg_selects_version (ver path : String) (g : globals) :
    (fetch_rpkg ver path g).install_rpkg = true ∧
    (fetch_rpkg ver path g).rpkg_path = path ∧
    (ver = "v94" → (fetch_rpkg ver path g).ever = .epoc9) ∧
    (ver = "v93" → (fetch_rpkg ver path g).ever = .epoc93) ∧
    (ver = "belle" → (fetch_rpkg ver path g).ever = .epoc10) ∧
    (ver = "v60" → (fetch_rpkg ver path g).ever = .epoc6) ∧
    (ver ≠ "v94" → ver ≠ "v93" → ver ≠ "belle" → ver ≠ "v60" →
      (fetch_rpkg ver path g).ever = g.ever) ∧
    (∀ (h : host) (rest : List String),
      parse_loop h ("-irpkg" :: ver :: path :: rest) g =
        parse_loop h rest (fetch_rpkg ver path g)) ∧
    (∀ (h : host) (prog : String),
      parse_args h [prog, "-irpkg", ver, path] g = some (fetch_rpkg ver path g)) := by
  have hloop : ∀ (h : host) (rest : List String),
      parse_loop h ("-irpkg" :: ver :: path :: rest) g =
        parse_loop h rest (fetch_rpkg ver path g) := by
    intro h rest
    obtain ⟨t1, t2, t3, t4, t5, t6, t7, t8, t9, t10⟩ := irpkg_tests
    have hb : parse_option h "-irpkg" (ver :: path :: rest) g =
        .next 2 (fetch_rpkg ver path g) := by
      simp only [parse_option, t1, t2, t3, t4, t5, t6, t7, t8, t9, t10, Bool.or_self,
        Bool.false_and, Bool.false_eq_true, if_false, if_true]
    rw [parse_loop, hb]
    rfl
  refine ⟨?_, ?_, ?_, ?_, ?_, ?_, ?_, hloop, ?_⟩
  · unfold fetch_rpkg; split_ifs <;> rfl
  · unfold fetch_rpkg; split_ifs <;> rfl
  · intro hv; subst hv; rfl
  · intro hv; subst hv; rfl
  · intro hv; subst hv; rfl
  · intro hv; subst hv; rfl
  · intro h1 h2 h3 h4
    unfold fetch_rpkg
    rw [if_neg h2, if_neg h1, if_neg h3, if_neg h4]
  · intro h prog
    show parse_loop h ("-irpkg" :: ver :: path :: []) g = some (fetch_rpkg ver path g)
    rw [hloop h [], parse_loop]

/-- The run `prog -irpkg belle z.rpkg` from the initial globals selects epoc10. -/
theorem fetch_rpkg_selects_version_witness :
    (fetch_rpkg "belle" "z.rpkg" {}).ever = .epoc10 ∧
    parse_args sample_host ["prog", "-irpkg", "belle", "z.rpkg"] {} =
      some (fetch_rpkg "belle" "z.rpkg" {}) :=
  ⟨(fetch_rpkg_selects_version "belle" "z.rpkg" {}).2.2.2.2.1 rfl,
   (fetch_rpkg_selects_version "belle" "z.rpkg" {}).2.2.2.2.2.2.2.2 sample_host "prog"⟩

/-- C4: the option `-ver v` sets the emulated version to epoc6 exactly when
`atoi v = 6` and to epoc9 for every other value (9 among them), and stores the
number of that same version under the key "epoc_ver" of the configuration; the
loop then goes on after `v`. -/
theorem parse_args_ver (h : host) (v : String) (rest : List String) (g : globals) :
    ∃ g1, parse_loop h ("-ver" :: v :: rest) g = parse_loop h rest g1 ∧
      (g1.ever = .epoc6 ↔ h.atoi v = 6) ∧
      (h.atoi v ≠ 6 → g1.ever = .epoc9) ∧
      (h.atoi v = 9 → g1.ever = .epoc9) ∧
      yaml_get g1.config "epoc_ver" = some (.int (h.epocver_int g1.ever)) ∧
      ∀ prog : String, parse_args h [prog, "-ver", v] g = some g1 := by
  obtain ⟨t1, t2, t3, t4⟩ := ver_tests
  have hloop : ∀ (g1 : globals) (tl : List String),
      parse_option h "-ver" (v :: tl) g = .next 1 g1 →
        parse_loop h ("-ver" :: v :: tl) g = parse_loop h tl g1 := by
    intro g1 tl hb
    rw [parse_loop, hb]
    rfl
  have hargs : ∀ g1 : globals, parse_option h "-ver" [v] g = .next 1 g1 →
      ∀ prog : String, parse_args h [prog, "-ver", v] g = some g1 := by
    intro g1 hb prog
    show parse_loop h ("-ver" :: v :: []) g = some g1
    rw [hloop g1 [] hb, parse_loop]
  by_cases hv : h.atoi v = 6
  · have hb : ∀ tl : List String, parse_option h "-ver" (v :: tl) g =
        .next 1 { g with ever := .epoc6,
                         config := yaml_set g.config "epoc_ver" (.int (h.epocver_int .epoc6)) } := by
      intro tl
      simp only [parse_option, t1, t2, t3, t4, hv, Bool.or_self, Bool.false_and, Bool.true_or,
        Bool.false_eq_true, if_false, if_true]
    refine ⟨_, hloop _ rest (hb rest), ⟨fun _ => hv, fun _ => rfl⟩, fun hne => absurd hv hne,
      fun h9 => ?_, ?_, hargs _ (hb [])⟩
    · rw [hv] at h9; exact absurd h9 (by decide)
    · simp [yaml_get, yaml_set, List.lookup]
  · have hb : ∀ tl : List String, parse_option h "-ver" (v :: tl) g =
        .next 1 { g with ever := .epoc9,
                         config := yaml_set g.config "epoc_ver" (.int (h.epocver_int .epoc9)) } := by
      intro tl
      simp only [parse_option, t1, t2, t3, t4, hv, Bool.or_self, Bool.false_and, Bool.true_or,
        Bool.false_eq_true, if_false, if_true]
    refine ⟨_, hloop _ rest (hb rest), ⟨fun he => ?_, fun h6 => absurd h6 hv⟩, fun _ => rfl,
      fun _ => rfl, ?_, hargs _ (hb [])⟩
    · exact absurd he (by simp)
    · simp [yaml_get, yaml_set, List.lookup]

/-- The runs `prog -ver 6` and `prog -ver 9` from the initial globals. -/
theorem parse_args_ver_witness :
    (∃ g1, parse_args sample_host ["prog", "-ver", "6"] {} = some g1 ∧
      g1.ever = .epoc6 ∧ yaml_get g1.config "epoc_ver" = some (.int 0)) ∧
    (∃ g1, parse_args sample_host ["prog", "-ver", "9"] {} = some g1 ∧
      g1.ever = .epoc9 ∧ yaml_get g1.config "epoc_ver" = some (.int 1)) := by
  constructor
  · obtain ⟨g1, _, h6, _, _, hc, hp⟩ := parse_args_ver sample_host "6" [] {}
    have he : g1.ever = .epoc6 := h6.mpr (by decide)
    exact ⟨g1, hp "prog", he, by rw [hc, he]; rfl⟩
  · obtain ⟨g1, _, _, _, h9, hc, hp⟩ := parse_args_ver sample_host "9" [] {}
    have he : g1.ever = .epoc9 := h9 (by decide)
    exact ⟨g1, hp "prog", he, by rw [hc, he]; rfl⟩

/-! ## Theorems: `-h` and `-help` -/

/-- C5: when each value-taking option of the argument vector is followed by its
values and `-h` or `-help` stands at option position, `parse_args` returns with
`quit` set; `parse_args` returns whenever the values are present; and on every
return a `quit` that was set is still set and the help text was printed at most
once. -/
theorem parse_args_help_quit (h : host) :
    (∀ (prog : String) (args : List String) (g : globals),
      values_present 0 args = true → help_at_option 0 args = true →
        ∃ g', parse_args h (prog :: args) g = some g' ∧ g'.quit = true) ∧
    (∀ (argv : List String) (g : globals),
      values_present 0 (argv.drop 1) = true → ∃ g', parse_args h argv g = some g') ∧
    (∀ (argv : List String) (g g' : globals), parse_args h argv g = some g' →
      (g.quit = true → g'.quit = true) ∧ help_prints g' ≤ help_prints g + 1) := by
  have hret : ∀ (argv : List String) (g : globals),
      values_present 0 (argv.drop 1) = true → ∃ g', parse_args h argv g = some g' := by
    intro argv g hv
    unfold parse_args
    split_ifs
    · exact ⟨_, rfl⟩
    · exact parse_loop_returns h _ _ g (Nat.le_refl _) hv
  refine ⟨?_, hret, ?_⟩
  · intro prog args g hv hh
    obtain ⟨g', hg'⟩ := hret (prog :: args) g hv
    refine ⟨g', hg', ?_⟩
    rcases args with _ | ⟨a, rest⟩
    · exact absurd hh (by simp [help_at_option])
    · have hl : parse_loop h (a :: rest) g = some g' := by
        simpa [parse_args] using hg'
      exact parse_loop_help_quit h _ _ g g' (Nat.le_refl _) hh hl
  · intro argv g g' hr
    unfold parse_args at hr
    split_ifs at hr
    · injection hr with hr
      subst hr
      refine ⟨fun _ => rfl, ?_⟩
      simp [help_prints, print_help, count_usage_line.1]
    · obtain ⟨hq, _, hc⟩ := parse_loop_help_rel h _ _ g g' (Nat.le_refl _) hr
      exact ⟨hq, by omega⟩

/-- The run `eka2l1 -rom -h -help -ver 6`: the `-h` is the value of `-rom`, the
`-help` stands at option position, and `quit` is set on return. -/
theorem parse_args_help_quit_witness :
    values_present 0 ["-rom", "-h", "-help", "-ver", "6"] = true ∧
    help_at_option 0 ["-rom", "-h", "-help", "-ver", "6"] = true ∧
    ∃ g', parse_args sample_host ["eka2l1", "-rom", "-h", "-help", "-ver", "6"] {} = some g' ∧
      g'.quit = true :=
  ⟨by decide, by decide,
   (parse_args_help_quit sample_host).1 "eka2l1" ["-rom", "-h", "-help", "-ver", "6"] {}
     (by decide) (by decide)⟩

/-- A `-h` that is the value of `-rom` is no request for help: the run
`eka2l1 -rom -h` returns with `quit` unset and `-h` as the path of the ROM. -/
theorem help_as_value_no_quit :
    help_at_option 0 ["-rom", "-h"] = false ∧
    ∃ g', parse_args sample_host ["eka2l1", "-rom", "-h"] {} = some g' ∧
      g'.quit = false ∧ g'.rom_path = "-h" := by
  refine ⟨by decide, { rom_path := "-h", config := [("rom_path", .str "-h")] }, ?_, rfl, rfl⟩
  simp [parse_args, parse_loop, parse_option, strncmp_eq, yaml_set]

end eka2l1
